import Mathlib

/-!
Verification of the ctxd indexing and retrieval pipeline.

This file gives a shallow embedding of the core data model and operations of
the ctxd semantic code-search daemon (chunkers, store mutations and cache,
search-mode resolution, result conversion and post-filtering, result
enhancement, and the incremental indexer), together with theorems settling
the specification claims about them.

Python strings are modelled as Lean `String`; the Python string operations
the code relies on (`str.strip()`, `str.split()` with and without separator,
`str.count`, `"\n".join`) are modelled by explicit character-level functions
below, faithful to CPython semantics for ASCII whitespace.
-/

/-- Whitespace set of Python `str.strip()` / `str.split()` (ASCII part). -/
def isPyWs (c : Char) : Bool :=
  c = ' ' || c = '\t' || c = '\n' || c = '\r' || c = '\x0b' || c = '\x0c'

/-- Model of Python `s.strip()` on the character list: drop leading and
trailing whitespace. -/
def stripCh (l : List Char) : List Char :=
  List.rdropWhile isPyWs (List.dropWhile isPyWs l)

/-- Model of Python `s.strip()`. -/
def pyStrip (s : String) : String :=
  ⟨stripCh s.data⟩

/-- Model of Python `s.split()` (no separator) on the character list:
maximal runs of non-whitespace characters; empty pieces never occur.  The
fuel argument bounds the recursion depth, structurally; it never runs out
when it starts at the list's length. -/
def wordsChFuel : Nat → List Char → List (List Char)
  | _, [] => []
  | 0, _ :: _ => []
  | fuel + 1, c :: rest =>
    if isPyWs c then wordsChFuel fuel rest
    else (c :: rest.takeWhile (fun d => ¬ isPyWs d)) ::
      wordsChFuel fuel (rest.dropWhile (fun d => ¬ isPyWs d))

/-- Model of Python `s.split()` on the character list. -/
def wordsCh (l : List Char) : List (List Char) :=
  wordsChFuel l.length l

/-- Model of Python `s.split()`. -/
def pyWords (s : String) : List String :=
  (wordsCh s.data).map (fun w => ⟨w⟩)

/-- Model of Python `s.split("\n")` on the character list. -/
def splitLinesCh : List Char → List (List Char)
  | [] => [[]]
  | c :: rest =>
    if c = '\n' then [] :: splitLinesCh rest
    else
      match splitLinesCh rest with
      | [] => [[c]]
      | l :: ls => (c :: l) :: ls

/-- Model of Python `s.split("\n")`. -/
def pyLines (s : String) : List String :=
  (splitLinesCh s.data).map (fun w => ⟨w⟩)

/-- Model of Python `s.split("\n\n")` on the character list (left-to-right,
non-overlapping occurrences of the two-character separator). -/
def splitParasCh : List Char → List (List Char)
  | [] => [[]]
  | '\n' :: '\n' :: rest => [] :: splitParasCh rest
  | c :: rest =>
    match splitParasCh rest with
    | [] => [[c]]
    | l :: ls => (c :: l) :: ls

/-- Model of Python `content.split("\n\n")`. -/
def pyParas (s : String) : List String :=
  (splitParasCh s.data).map (fun w => ⟨w⟩)

/-- Model of Python `s.count("\n")`. -/
def countNl (s : String) : Nat :=
  s.data.count '\n'

/-- Model of Python `sep.join(pieces)` for a one-character separator, on
character lists. -/
def joinChSep (sep : Char) : List (List Char) → List Char
  | [] => []
  | [x] => x
  | x :: y :: xs => x ++ sep :: joinChSep sep (y :: xs)

/-- Model of Python `"\n".join(lines)`. -/
def joinNl (ls : List String) : String :=
  ⟨joinChSep '\n' (ls.map String.data)⟩

/-- Model of Python `" ".join(words)`. -/
def joinSp (ls : List String) : String :=
  ⟨joinChSep ' ' (ls.map String.data)⟩

/-- Metadata dictionary attached to a chunk by every chunker
(`start_line`, `end_line`, `chunk_type`, `name`). -/
structure ChunkMeta where
  start_line : Nat
  end_line : Nat
  chunk_type : String
  name : Option String
deriving DecidableEq, Repr

/-- From src/ctxd/chunkers/fallback.py, `FallbackChunker._split_into_paragraphs`:
split by double newlines, strip each piece, keep the non-empty ones. -/
def FallbackChunker.split_into_paragraphs (content : String) : List String :=
  ((pyParas content).map pyStrip).filter (fun p => p ≠ "")

/-- Loop body of `FallbackChunker._split_large_paragraph` (fallback.py lines
109-133): windows of `maxChunkSize` words advancing by
`maxChunkSize - chunkOverlap`.  The Python loop does not terminate when
`chunkOverlap ≥ maxChunkSize`; it is embedded with explicit fuel, and the
top-level wrapper passes fuel `words.length`, enough for every terminating
run (the index advances by at least one word per iteration). -/
def FallbackChunker.splitLoop (maxChunkSize chunkOverlap : Nat)
    (words : List String) :
    Nat → Nat → Nat → List (String × ChunkMeta)
  | 0, _, _ => []
  | fuel + 1, i, currentLine =>
    if i < words.length then
      let chunkWords := (words.drop i).take maxChunkSize
      let chunkText := joinSp chunkWords
      let lineCount := countNl chunkText + 1
      (chunkText,
        ⟨currentLine, currentLine + lineCount - 1, "paragraph", none⟩) ::
        FallbackChunker.splitLoop maxChunkSize chunkOverlap words fuel
          (i + (maxChunkSize - chunkOverlap)) (currentLine + lineCount)
    else []

/-- From src/ctxd/chunkers/fallback.py, `FallbackChunker._split_large_paragraph`. -/
def FallbackChunker.split_large_paragraph (maxChunkSize chunkOverlap : Nat)
    (paragraph : String) (startLine : Nat) : List (String × ChunkMeta) :=
  let words := pyWords paragraph
  FallbackChunker.splitLoop maxChunkSize chunkOverlap words words.length 0 startLine

/-- From src/ctxd/chunkers/fallback.py, `FallbackChunker.chunk` (lines 33-86). -/
def FallbackChunker.chunk (maxChunkSize chunkOverlap : Nat)
    (content : String) : List (String × ChunkMeta) :=
  if pyStrip content = "" then []
  else
    let lines := pyLines content
    let paragraphs := FallbackChunker.split_into_paragraphs content
    if paragraphs = [] then
      [(content, ⟨1, lines.length, "block", none⟩)]
    else
      (paragraphs.foldl
        (fun (acc : List (String × ChunkMeta) × Nat) para =>
          let chunks := acc.1
          let currentLine := acc.2
          if pyStrip para = "" then (chunks, currentLine)
          else
            let paraLines := countNl para + 1
            let wordCount := (pyWords para).length
            let chunks' :=
              if wordCount ≤ maxChunkSize then
                chunks ++ [(para,
                  ⟨currentLine, currentLine + paraLines - 1, "paragraph", none⟩)]
              else
                chunks ++ FallbackChunker.split_large_paragraph maxChunkSize
                  chunkOverlap para currentLine
            (chunks', currentLine + paraLines))
        ([], 1)).1

/-- Model of the Python regex match `^(#{1,6})\s+(.+)$` from
src/ctxd/chunkers/markdown.py line 48, returning `group(2)` on success.
Greedy matching with backtracking: one to six leading hash characters, then
at least one whitespace character, then a non-empty remainder; when the text
after the hashes is all whitespace (of length at least two), backtracking
leaves the final whitespace character as `group(2)`. -/
def MarkdownChunker.headerMatch (line : String) : Option String :=
  let cs := line.data
  let hashes := cs.takeWhile (fun c => c = '#')
  let rest := cs.drop hashes.length
  if 1 ≤ hashes.length ∧ hashes.length ≤ 6 then
    match rest with
    | [] => none
    | c :: t =>
      if isPyWs c then
        if t = [] then none
        else
          let afterWs := rest.dropWhile isPyWs
          if afterWs = [] then some ⟨[rest.getLastD ' ']⟩
          else some ⟨afterWs⟩
      else none
  else none

/-- From src/ctxd/chunkers/markdown.py, `MarkdownChunker._make_chunk`. -/
def MarkdownChunker.make_chunk (lines : List String) (start stop : Nat)
    (name : Option String) : String × ChunkMeta :=
  (joinNl lines, ⟨start, stop, "section", name⟩)

/-- Loop of `MarkdownChunker.chunk` (markdown.py lines 46-62): state is
(chunks emitted so far, lines of the current chunk, its start line, the
current header name); `i` is the 1-based index of the next line. -/
def MarkdownChunker.loop :
    List String → Nat → List (String × ChunkMeta) → List String → Nat →
    Option String →
    List (String × ChunkMeta) × List String × Nat × Option String
  | [], _, chunks, currentChunk, currentStart, headerName =>
    (chunks, currentChunk, currentStart, headerName)
  | line :: rest, i, chunks, currentChunk, currentStart, headerName =>
    match MarkdownChunker.headerMatch line with
    | some g2 =>
      let chunks' :=
        if currentChunk ≠ [] then
          chunks ++ [MarkdownChunker.make_chunk currentChunk currentStart
            (i - 1) headerName]
        else chunks
      MarkdownChunker.loop rest (i + 1) chunks' [line] i (some (pyStrip g2))
    | none =>
      MarkdownChunker.loop rest (i + 1) chunks (currentChunk ++ [line])
        currentStart headerName

/-- From src/ctxd/chunkers/markdown.py, `MarkdownChunker.chunk` (lines 25-82). -/
def MarkdownChunker.chunk (content : String) : List (String × ChunkMeta) :=
  if pyStrip content = "" then []
  else
    let lines := pyLines content
    let st := MarkdownChunker.loop lines 1 [] [] 1 none
    let chunks :=
      if st.2.1 ≠ [] then
        st.1 ++ [MarkdownChunker.make_chunk st.2.1 st.2.2.1 lines.length st.2.2.2]
      else st.1
    if chunks = [] then
      [(content, ⟨1, lines.length, "block", none⟩)]
    else chunks

/-- From src/ctxd/models.py, `CodeChunk` (LanceDB row).  Scores and
timestamps are modelled as rationals, embedding vectors as rational lists. -/
structure CodeChunk where
  vector : List ℚ
  text : String
  path : String
  start_line : Nat
  end_line : Nat
  chunk_type : String
  name : Option String
  language : String
  file_hash : String
  indexed_at : ℚ
  branch : Option String
deriving DecidableEq, Repr

/-- From src/ctxd/models.py, `SearchResult`: a chunk paired with a score. -/
structure SearchResult where
  chunk : CodeChunk
  score : ℚ
deriving DecidableEq, Repr

/-- Pydantic construction of `SearchResult` (models.py lines 46-49): the
`score` field carries the constraints `ge=0, le=1`, so construction raises a
validation error for a score outside `[0, 1]`. -/
def mkSearchResult (chunk : CodeChunk) (score : ℚ) :
    Except String SearchResult :=
  if 0 ≤ score ∧ score ≤ 1 then .ok ⟨chunk, score⟩
  else .error "validation error: score"

/-- Raw row returned by the storage engine for one hit: the chunk columns
plus the engine-internal fields `_distance` (vector search) and `_score`
(FTS and hybrid search), each absent when the engine did not produce it. -/
structure RawResult where
  chunk : CodeChunk
  distance : Option ℚ
  fscore : Option ℚ
deriving DecidableEq, Repr

/-- Score computation of `VectorStore._convert_results` (store.py lines
445-457) for one raw row given the `score_type`. -/
def VectorStore.convertScore (raw : RawResult) (scoreType : String) : ℚ :=
  if scoreType = "distance" then 1 / (1 + raw.distance.getD 0)
  else if scoreType = "fts" then raw.fscore.getD 0
  else if scoreType = "hybrid" then raw.fscore.getD 0
  else 0

/-- From src/ctxd/store.py, `VectorStore._convert_results` (lines 441-465):
convert raw engine rows to `SearchResult`s in order; pydantic validation of
any row aborts the whole conversion with the first error. -/
def VectorStore.convert_results :
    List RawResult → String → Except String (List SearchResult)
  | [], _ => .ok []
  | raw :: rest, scoreType =>
    match mkSearchResult raw.chunk (VectorStore.convertScore raw scoreType) with
    | .error e => .error e
    | .ok r =>
      match VectorStore.convert_results rest scoreType with
      | .error e => .error e
      | .ok rs => .ok (r :: rs)

/-- From src/ctxd/store.py, `VectorStore._post_filter` (lines 467-469). -/
def VectorStore.post_filter (results : List SearchResult) (minScore : ℚ) :
    List SearchResult :=
  results.filter (fun r => minScore ≤ r.score)

/-- Python truthiness of an optional string (`if query_text`). -/
def truthyStr : Option String → Bool
  | none => false
  | some s => s ≠ ""

/-- Python truthiness of an optional vector (`if query_vector`). -/
def truthyVec : Option (List ℚ) → Bool
  | none => false
  | some v => v ≠ []

/-- Errors raised by `VectorStore.search` while resolving the mode and
validating its inputs (all are Python `ValueError`s). -/
inductive SearchArgError where
  | noQuery
  | vectorRequired
  | textRequired
  | invalidMode
deriving DecidableEq, Repr

/-- From src/ctxd/store.py, `VectorStore.search` lines 219-234 together with
the dispatch of lines 258-269: auto-detect the mode from the truthiness of
`query_text` / `query_vector` when no explicit mode is given, validate the
required input of the resolved mode against `None`, and reject a mode other
than vector, fts or hybrid at dispatch. -/
def VectorStore.searchRoute (mode : Option String) (queryText : Option String)
    (queryVector : Option (List ℚ)) : Except SearchArgError String := do
  let m ← match mode with
    | some m => pure m
    | none =>
      if truthyStr queryText ∧ truthyVec queryVector then pure "hybrid"
      else if truthyVec queryVector then pure "vector"
      else if truthyStr queryText then pure "fts"
      else throw .noQuery
  if m = "vector" ∧ queryVector = none then throw .vectorRequired
  else if (m = "fts" ∨ m = "hybrid") ∧ queryText = none then throw .textRequired
  else if m = "vector" ∨ m = "fts" ∨ m = "hybrid" then pure m
  else throw .invalidMode

/-- From src/ctxd/result_enhancer.py, `ResultEnhancer._calculate_overlap`
(lines 200-229).  Line numbers are Python integers. -/
def ResultEnhancer.calculate_overlap (start1 end1 start2 end2 : Int) : ℚ :=
  let overlapStart := max start1 start2
  let overlapEnd := min end1 end2
  if overlapStart > overlapEnd then 0
  else
    let overlapLines := overlapEnd - overlapStart + 1
    let range1Lines := end1 - start1 + 1
    let range2Lines := end2 - start2 + 1
    let smallerRange := min range1Lines range2Lines
    if smallerRange > 0 then (overlapLines : ℚ) / (smallerRange : ℚ) else 0

/-- Overlap of two search results, as invoked by `ResultEnhancer.deduplicate`
(result_enhancer.py lines 63-66). -/
def ResultEnhancer.resultOverlap (a b : SearchResult) : ℚ :=
  ResultEnhancer.calculate_overlap a.chunk.start_line a.chunk.end_line
    b.chunk.start_line b.chunk.end_line

/-- First-occurrence order of file paths in a result list: the iteration
order of the Python dict built in `deduplicate` (lines 45-50). -/
def ResultEnhancer.groupPaths (results : List SearchResult) : List String :=
  results.foldl
    (fun acc r => if r.chunk.path ∈ acc then acc else acc ++ [r.chunk.path]) []

/-- Python `list.sort(key=lambda r: r.score, reverse=True)`: stable
descending sort by score, modelled by insertion sort with the total
preorder comparing scores in reverse. -/
def ResultEnhancer.sortByScoreDesc (results : List SearchResult) :
    List SearchResult :=
  List.insertionSort (fun a b => b.score ≤ a.score) results

/-- Greedy keep loop of `deduplicate` (result_enhancer.py lines 58-72): keep
a result unless it overlaps at least `threshold` with something already
kept. -/
def ResultEnhancer.greedyKeep (fileResults : List SearchResult)
    (overlapThreshold : ℚ) : List SearchResult :=
  fileResults.foldl
    (fun kept r =>
      if kept.any (fun k => overlapThreshold ≤ ResultEnhancer.resultOverlap r k)
      then kept
      else kept ++ [r]) []

/-- From src/ctxd/result_enhancer.py, `ResultEnhancer.deduplicate`
(lines 23-80). -/
def ResultEnhancer.deduplicate (results : List SearchResult)
    (overlapThreshold : ℚ) : List SearchResult :=
  if results = [] then results
  else
    let deduplicated :=
      (ResultEnhancer.groupPaths results).flatMap (fun path =>
        ResultEnhancer.greedyKeep
          (ResultEnhancer.sortByScoreDesc
            (results.filter (fun r => r.chunk.path = path)))
          overlapThreshold)
    ResultEnhancer.sortByScoreDesc deduplicated

/-- Model of `open(file_path).readlines()` for `expand_context`: the
filesystem maps a path to its list of lines (each line keeping its trailing
newline, as `readlines` does), or to `none` when the file is missing or
unreadable. -/
def FileSystem : Type := String → Option (List String)

/-- From src/ctxd/result_enhancer.py, `ResultEnhancer.expand_context`
(lines 82-151), for a single result: re-read the source file, clamp the
expanded range, rebuild the chunk with only text and line range replaced.
A missing file keeps the original result (lines 113-115); so does any
exception, in particular the pydantic validation failure when the rebuilt
`CodeChunk` would get `end_line = 0` (empty file) or when the result's
score does not satisfy the `[0, 1]` constraint (lines 146-149). -/
def ResultEnhancer.expandOne (fs : FileSystem) (linesBefore linesAfter : Nat)
    (r : SearchResult) : SearchResult :=
  match fs r.chunk.path with
  | none => r
  | some lines =>
    let startLine := max 1 (r.chunk.start_line - linesBefore)
    let endLine := min lines.length (r.chunk.end_line + linesAfter)
    let expandedText := String.join ((lines.drop (startLine - 1)).take
      (endLine - (startLine - 1)))
    if 1 ≤ startLine ∧ 1 ≤ endLine ∧ 0 ≤ r.score ∧ r.score ≤ 1 then
      { chunk :=
          { r.chunk with
            text := expandedText
            start_line := startLine
            end_line := endLine }
        score := r.score }
    else r

/-- From src/ctxd/result_enhancer.py, `ResultEnhancer.expand_context`
(lines 82-151): per-result expansion over the whole list. -/
def ResultEnhancer.expand_context (fs : FileSystem)
    (linesBefore linesAfter : Nat) (results : List SearchResult) :
    List SearchResult :=
  results.map (ResultEnhancer.expandOne fs linesBefore linesAfter)

/-- State of a `VectorStore` (src/ctxd/store.py): the persisted chunk table
in insertion order, plus the LRU query cache (`_cached_search`), modelled as
an association list from cache key to cached result list. -/
structure VectorStoreState where
  rows : List CodeChunk
  cache : List (String × List SearchResult)
deriving DecidableEq, Repr

/-- From src/ctxd/store.py, `VectorStore.add_chunks` (lines 105-126): an
empty list returns immediately; otherwise the rows are appended and
`clear_cache` empties the query cache. -/
def VectorStore.add_chunks (st : VectorStoreState) (chunks : List CodeChunk) :
    VectorStoreState :=
  if chunks = [] then st
  else { rows := st.rows ++ chunks, cache := [] }

/-- From src/ctxd/store.py, `VectorStore.delete_by_path` (lines 471-498):
delete every row whose `path` matches, returning the new state and the
number of deleted rows.  The method does not touch the query cache. -/
def VectorStore.delete_by_path (st : VectorStoreState) (path : String) :
    VectorStoreState × Nat :=
  let remaining := st.rows.filter (fun c => c.path ≠ path)
  ({ st with rows := remaining }, st.rows.length - remaining.length)

/-- From src/ctxd/store.py, `VectorStore.delete_by_branch` (lines 500-527):
delete every row whose `branch` equals the given branch (SQL equality, which
a null branch never satisfies).  The method does not touch the query cache. -/
def VectorStore.delete_by_branch (st : VectorStoreState) (branch : String) :
    VectorStoreState × Nat :=
  let remaining := st.rows.filter (fun c => c.branch ≠ some branch)
  ({ st with rows := remaining }, st.rows.length - remaining.length)

/-- From src/ctxd/store.py, `VectorStore.get_file_hash` (lines 574-599):
the `file_hash` of the first stored row whose `path` matches, if any. -/
def VectorStore.get_file_hash (st : VectorStoreState) (path : String) :
    Option String :=
  ((st.rows.filter (fun c => c.path = path)).head?).map (fun c => c.file_hash)

/-- Cache consultation of `VectorStore.search` (store.py lines 237-255) for
a fixed query whose cache key is `key` and whose uncached execution is
`exec` (the dispatch `_execute_search_impl`, external to this claim): a hit
returns the cached list, a miss executes and caches. -/
def VectorStore.searchCached (st : VectorStoreState) (key : String)
    (exec : List CodeChunk → List SearchResult) (useCache : Bool) :
    List SearchResult × VectorStoreState :=
  if useCache then
    match (st.cache.find? (fun kv => kv.1 = key)).map (fun kv => kv.2) with
    | some cached => (cached, st)
    | none =>
      let res := exec st.rows
      (res, { st with cache := st.cache ++ [(key, res)] })
  else (exec st.rows, st)

/-- Construction of one `CodeChunk` row inside `Indexer._index_file`
(indexer.py lines 664-676). -/
def Indexer.mkChunk (embed : String → List ℚ) (language : String)
    (branch : Option String) (indexedAt : ℚ) (relPath fileHash : String)
    (td : String × ChunkMeta) : CodeChunk :=
  { vector := embed td.1
    text := td.1
    path := relPath
    start_line := td.2.start_line
    end_line := td.2.end_line
    chunk_type := td.2.chunk_type
    name := td.2.name
    language := language
    file_hash := fileHash
    indexed_at := indexedAt
    branch := branch }

/-- From src/ctxd/indexer.py, `Indexer._index_file` (lines 603-682), serial
(immediate-embedding) path.  Reading the file is abstracted by passing its
content; hashing is the abstract `hashFn` (SHA-256 in the code), chunking
the abstract `chunkFn` (the selected chunker), embedding the abstract
`embed`.  Returns the new store state and the number of chunks added. -/
def Indexer.index_file (hashFn : String → String)
    (chunkFn : String → List (String × ChunkMeta)) (embed : String → List ℚ)
    (language : String) (branch : Option String) (indexedAt : ℚ)
    (st : VectorStoreState) (relPath content : String) :
    VectorStoreState × Nat :=
  if pyStrip content = "" then (st, 0)
  else
    let fileHash := hashFn content
    let st1 := (VectorStore.delete_by_path st relPath).1
    let chunksData := chunkFn content
    if chunksData = [] then (st1, 0)
    else
      let chunks := chunksData.map
        (Indexer.mkChunk embed language branch indexedAt relPath fileHash)
      (VectorStore.add_chunks st1 chunks, chunksData.length)

/-- Per-file step of `Indexer._index_files_serial` (indexer.py lines
243-261): with `force = false`, skip the file (returning `none`) when the
freshly computed hash equals the stored hash for its path; otherwise run
`_index_file` and return the number of chunks added. -/
def Indexer.index_file_step (hashFn : String → String)
    (chunkFn : String → List (String × ChunkMeta)) (embed : String → List ℚ)
    (language : String) (branch : Option String) (indexedAt : ℚ)
    (force : Bool) (st : VectorStoreState) (relPath content : String) :
    VectorStoreState × Option Nat :=
  if ¬ force ∧ VectorStore.get_file_hash st relPath = some (hashFn content)
  then (st, none)
  else
    let r := Indexer.index_file hashFn chunkFn embed language branch indexedAt
      st relPath content
    (r.1, some r.2)

/-! Helper lemmas. -/

theorem stripCh_dropWhile (l : List Char) :
    List.dropWhile isPyWs (stripCh l) = stripCh l := by
  rw [List.dropWhile_eq_self_iff]
  intro hl
  have hpre : stripCh l <+: List.dropWhile isPyWs l :=
    List.rdropWhile_prefix isPyWs (List.dropWhile isPyWs l)
  have hlen : 0 < (List.dropWhile isPyWs l).length :=
    lt_of_lt_of_le hl hpre.length_le
  have h0 : (stripCh l).get ⟨0, hl⟩ =
      (List.dropWhile isPyWs l).get ⟨0, hlen⟩ := by
    simpa using hpre.getElem hl
  rw [h0]
  exact List.dropWhile_get_zero_not isPyWs l hlen

theorem stripCh_idem (l : List Char) : stripCh (stripCh l) = stripCh l := by
  show List.rdropWhile isPyWs (List.dropWhile isPyWs (stripCh l)) = stripCh l
  rw [stripCh_dropWhile]
  exact List.rdropWhile_idempotent isPyWs (List.dropWhile isPyWs l)

theorem pyStrip_idem (s : String) : pyStrip (pyStrip s) = pyStrip s := by
  show String.mk (stripCh (stripCh s.data)) = String.mk (stripCh s.data)
  rw [stripCh_idem]

/-- C5 (amended): the paragraph fallback chunker yields zero chunks on empty
or whitespace-only content; content containing no blank-line separator whose
word count is at most `maxChunkSize` yields exactly one chunk of type
`paragraph` (not `block`: that branch of the code is unreachable) whose text
is the input stripped of surrounding whitespace, starting at line 1 and
ending at the stripped text's line count. -/
theorem fallback_chunk_characterization
    (maxChunkSize chunkOverlap : Nat) (content : String) :
    (pyStrip content = "" →
      FallbackChunker.chunk maxChunkSize chunkOverlap content = []) ∧
    (pyParas content = [content] → pyStrip content ≠ "" →
      (pyWords (pyStrip content)).length ≤ maxChunkSize →
      FallbackChunker.chunk maxChunkSize chunkOverlap content =
        [(pyStrip content,
          ⟨1, countNl (pyStrip content) + 1, "paragraph", none⟩)]) := by
  constructor
  · intro h
    simp [FallbackChunker.chunk, h]
  · intro hparas hne hwc
    have hps : FallbackChunker.split_into_paragraphs content =
        [pyStrip content] := by
      simp [FallbackChunker.split_into_paragraphs, hparas, hne]
    simp only [FallbackChunker.chunk, if_neg hne, hps]
    have hnil : ([pyStrip content] : List String) ≠ [] := by simp
    rw [if_neg hnil]
    simp only [List.foldl_cons, List.foldl_nil]
    rw [pyStrip_idem]
    simp [hne, hwc]

/-- C5 witness: both branches of `fallback_chunk_characterization` applied
at concrete inputs. -/
theorem fallback_chunk_characterization_witness :
    FallbackChunker.chunk 500 50 " \n " = [] ∧
    FallbackChunker.chunk 500 50 "hi\nthere" =
      [(pyStrip "hi\nthere",
        ⟨1, countNl (pyStrip "hi\nthere") + 1, "paragraph", none⟩)] :=
  ⟨(fallback_chunk_characterization 500 50 " \n ").1 (by decide),
    (fallback_chunk_characterization 500 50 "hi\nthere").2 (by decide)
      (by decide) (by decide)⟩

/-- C5 counterexample: "hello" contains no blank-line separator, yet the
fallback chunker emits a chunk of type `paragraph`, not `block` as the claim
states (the `block` branch is dead code: any content whose strip is
non-empty yields at least one paragraph). -/
theorem fallback_no_separator_not_block :
    pyParas "hello" = ["hello"] ∧
    FallbackChunker.chunk 500 50 "hello" =
      [("hello", ⟨1, 1, "paragraph", none⟩)] ∧
    ("paragraph" : String) ≠ "block" := by decide

theorem joinChSep_cons_cons (sep c : Char) (l : List Char)
    (ls : List (List Char)) :
    joinChSep sep ((c :: l) :: ls) = c :: joinChSep sep (l :: ls) := by
  cases ls <;> rfl

theorem splitLinesCh_ne_nil (l : List Char) : splitLinesCh l ≠ [] := by
  cases l with
  | nil => simp [splitLinesCh]
  | cons c rest =>
    simp only [splitLinesCh]
    split
    · simp
    · split <;> simp

theorem joinChSep_splitLinesCh (l : List Char) :
    joinChSep '\n' (splitLinesCh l) = l := by
  induction l with
  | nil => rfl
  | cons c rest ih =>
    simp only [splitLinesCh]
    by_cases h : c = '\n'
    · rw [if_pos h]
      obtain ⟨y, ys, hy⟩ := List.exists_cons_of_ne_nil (splitLinesCh_ne_nil rest)
      rw [hy] at ih ⊢
      show joinChSep '\n' ([] :: y :: ys) = c :: rest
      simpa [joinChSep, h] using ih
    · rw [if_neg h]
      obtain ⟨y, ys, hy⟩ := List.exists_cons_of_ne_nil (splitLinesCh_ne_nil rest)
      rw [hy] at ih ⊢
      rw [joinChSep_cons_cons, ih]

theorem pyLines_ne_nil (s : String) : pyLines s ≠ [] := by
  unfold pyLines
  intro h
  exact splitLinesCh_ne_nil s.data (List.map_eq_nil_iff.mp h)

theorem joinNl_pyLines (s : String) : joinNl (pyLines s) = s := by
  show String.mk (joinChSep '\n' (((splitLinesCh s.data).map _).map _)) = s
  rw [List.map_map]
  rw [show (String.data ∘ fun w : List Char => String.mk w) = id from rfl,
    List.map_id, joinChSep_splitLinesCh]

theorem md_loop_noheader (seg : List String)
    (h : ∀ l ∈ seg, MarkdownChunker.headerMatch l = none) :
    ∀ restLines i chunks cur stt nm,
      MarkdownChunker.loop (seg ++ restLines) i chunks cur stt nm =
        MarkdownChunker.loop restLines (i + seg.length) chunks (cur ++ seg)
          stt nm := by
  induction seg with
  | nil => intro restLines i chunks cur stt nm; simp
  | cons a seg' ih =>
    intro restLines i chunks cur stt nm
    have ha : MarkdownChunker.headerMatch a = none := h a (by simp)
    have hrest : ∀ l ∈ seg', MarkdownChunker.headerMatch l = none :=
      fun l hl => h l (by simp [hl])
    show MarkdownChunker.loop (a :: (seg' ++ restLines)) i chunks cur stt nm = _
    simp only [MarkdownChunker.loop, ha]
    rw [ih hrest]
    simp only [List.length_cons, List.append_assoc, List.singleton_append]
    congr 1
    omega

theorem md_loop_chunks_mono :
    ∀ (lines : List String) i chunks cur stt nm,
      MarkdownChunker.loop lines i chunks cur stt nm =
        (chunks ++ (MarkdownChunker.loop lines i [] cur stt nm).1,
          (MarkdownChunker.loop lines i [] cur stt nm).2) := by
  intro lines
  induction lines with
  | nil => intro i chunks cur stt nm; simp [MarkdownChunker.loop]
  | cons line rest ih =>
    intro i chunks cur stt nm
    cases hm : MarkdownChunker.headerMatch line with
    | none =>
      simp only [MarkdownChunker.loop, hm]
      exact ih (i + 1) chunks (cur ++ [line]) stt nm
    | some g2 =>
      simp only [MarkdownChunker.loop, hm]
      by_cases hc : cur = []
      · simp only [hc, ne_eq, not_true_eq_false, if_false]
        exact ih (i + 1) chunks [line] i (some (pyStrip g2))
      · simp only [ne_eq, hc, not_false_eq_true, if_true]
        rw [ih (i + 1)
          (chunks ++ [MarkdownChunker.make_chunk cur stt (i - 1) nm]),
          ih (i + 1) ([] ++ [MarkdownChunker.make_chunk cur stt (i - 1) nm])]
        simp

/-- C6 (amended): chunking "# A\n\nx\n\n## B\n\ny" yields exactly the two
section chunks named "A" and "B" in order, the first ending on the line
directly preceding the second header; empty input yields zero chunks;
content with zero header lines becomes one whole-file chunk typed `section`
(not `block`: that branch of the code is unreachable) with name null; and
content preceding the first header becomes its own chunk with name null. -/
theorem markdown_chunk_characterization :
    (MarkdownChunker.chunk "# A\n\nx\n\n## B\n\ny" =
      [("# A\n\nx\n", ⟨1, 4, "section", some "A"⟩),
        ("## B\n\ny", ⟨5, 7, "section", some "B"⟩)]) ∧
    (∀ content : String, pyStrip content = "" →
      MarkdownChunker.chunk content = []) ∧
    (∀ content : String, pyStrip content ≠ "" →
      (∀ l ∈ pyLines content, MarkdownChunker.headerMatch l = none) →
      MarkdownChunker.chunk content =
        [(content, ⟨1, (pyLines content).length, "section", none⟩)]) ∧
    (∀ (content : String) (pre : List String) (hline : String)
        (rest : List String),
      pyStrip content ≠ "" →
      pyLines content = pre ++ hline :: rest →
      pre ≠ [] →
      (∀ l ∈ pre, MarkdownChunker.headerMatch l = none) →
      MarkdownChunker.headerMatch hline ≠ none →
      (MarkdownChunker.chunk content).head? =
        some (joinNl pre, ⟨1, pre.length, "section", none⟩)) := by
  refine ⟨by decide, ?_, ?_, ?_⟩
  · intro content h
    simp [MarkdownChunker.chunk, h]
  · intro content hne hnoh
    have hsplit : pyLines content = pyLines content ++ [] := by simp
    simp only [MarkdownChunker.chunk, if_neg hne]
    rw [hsplit, md_loop_noheader (pyLines content) hnoh []]
    simp only [MarkdownChunker.loop, List.nil_append]
    rw [if_pos (pyLines_ne_nil content)]
    rw [if_neg (by simp)]
    simp [MarkdownChunker.make_chunk, joinNl_pyLines]
  · intro content pre hline rest hne hsplit hpre hnoh hhdr
    obtain ⟨g2, hg2⟩ : ∃ g2, MarkdownChunker.headerMatch hline = some g2 := by
      cases hm : MarkdownChunker.headerMatch hline with
      | none => exact absurd hm hhdr
      | some g => exact ⟨g, rfl⟩
    simp only [MarkdownChunker.chunk, if_neg hne]
    rw [hsplit, md_loop_noheader pre hnoh (hline :: rest)]
    simp only [MarkdownChunker.loop, hg2, List.nil_append, ne_eq, hpre,
      not_false_eq_true, if_true]
    rw [md_loop_chunks_mono rest (1 + pre.length + 1)
      [MarkdownChunker.make_chunk pre 1 (1 + pre.length - 1) none]]
    have harith : 1 + pre.length - 1 = pre.length := by omega
    rw [harith]
    set tail := (MarkdownChunker.loop rest (1 + pre.length + 1) []
      [hline] (1 + pre.length) (some (pyStrip g2)))
    simp only [List.nil_append, List.cons_append]
    by_cases hcur : tail.2.1 = []
    · simp only [hcur, ne_eq, not_true_eq_false, if_false]
      rw [if_neg (by simp)]
      simp [MarkdownChunker.make_chunk]
    · simp only [ne_eq, hcur, not_false_eq_true, if_true]
      rw [if_neg (by simp)]
      simp [MarkdownChunker.make_chunk]

/-- C6 witness: the zero-header and content-before-first-header branches of
`markdown_chunk_characterization` applied at concrete inputs. -/
theorem markdown_chunk_characterization_witness :
    MarkdownChunker.chunk "plain\ntext" =
      [("plain\ntext", ⟨1, 2, "section", none⟩)] ∧
    (MarkdownChunker.chunk "pre\n# H\nbody").head? =
      some (joinNl ["pre"], ⟨1, 1, "section", none⟩) :=
  ⟨by
    have h := markdown_chunk_characterization.2.2.1 "plain\ntext"
      (by decide) (by decide)
    simpa using h,
   markdown_chunk_characterization.2.2.2 "pre\n# H\nbody" ["pre"] "# H"
      ["body"] (by decide) (by decide) (by decide) (by decide) (by decide)⟩

/-- C6 counterexample: "hello\nworld" has zero header lines, yet the
markdown chunker emits the whole-file chunk with type `section`, not
`block` as the claim states (the `block` branch is dead code: the loop
always accumulates at least one line, so at least one `section` chunk is
always emitted for non-whitespace content). -/
theorem markdown_zero_headers_not_block :
    (∀ l ∈ pyLines "hello\nworld", MarkdownChunker.headerMatch l = none) ∧
    MarkdownChunker.chunk "hello\nworld" =
      [("hello\nworld", ⟨1, 2, "section", none⟩)] ∧
    ("section" : String) ≠ "block" := by decide

theorem mkSearchResult_ok (chunk : CodeChunk) (score : ℚ) (r : SearchResult)
    (h : mkSearchResult chunk score = .ok r) :
    r.chunk = chunk ∧ r.score = score ∧ 0 ≤ score ∧ score ≤ 1 := by
  unfold mkSearchResult at h
  split at h
  · next hc =>
    injection h with h'
    subst h'
    exact ⟨rfl, rfl, hc.1, hc.2⟩
  · exact absurd h (by simp)

theorem convert_results_ok_mem (raws : List RawResult) (scoreType : String)
    (res : List SearchResult)
    (h : VectorStore.convert_results raws scoreType = .ok res) :
    ∀ r ∈ res, ∃ raw ∈ raws,
      mkSearchResult raw.chunk (VectorStore.convertScore raw scoreType) =
        .ok r := by
  induction raws generalizing res with
  | nil =>
    unfold VectorStore.convert_results at h
    injection h with h'
    subst h'
    intro r hr
    exact absurd hr (by simp)
  | cons raw rest ih =>
    unfold VectorStore.convert_results at h
    cases h1 : mkSearchResult raw.chunk
        (VectorStore.convertScore raw scoreType) with
    | error e => rw [h1] at h; exact absurd h (by simp)
    | ok r0 =>
      rw [h1] at h
      cases h2 : VectorStore.convert_results rest scoreType with
      | error e => rw [h2] at h; exact absurd h (by simp)
      | ok rs =>
        rw [h2] at h
        injection h with h'
        subst h'
        intro r hr
        rcases List.mem_cons.mp hr with hr0 | hrs
        · exact ⟨raw, by simp, hr0 ▸ h1⟩
        · obtain ⟨raw', hraw', hmk⟩ := ih rs h2 r hrs
          exact ⟨raw', by simp [hraw'], hmk⟩

theorem convert_results_forall2 (raws : List RawResult) (scoreType : String)
    (res : List SearchResult)
    (h : VectorStore.convert_results raws scoreType = .ok res) :
    List.Forall₂ (fun (raw : RawResult) (r : SearchResult) =>
      r.score = VectorStore.convertScore raw scoreType ∧
        0 ≤ r.score ∧ r.score ≤ 1) raws res := by
  induction raws generalizing res with
  | nil =>
    unfold VectorStore.convert_results at h
    injection h with h'
    subst h'
    exact List.Forall₂.nil
  | cons raw rest ih =>
    unfold VectorStore.convert_results at h
    cases h1 : mkSearchResult raw.chunk
        (VectorStore.convertScore raw scoreType) with
    | error e => rw [h1] at h; exact absurd h (by simp)
    | ok r0 =>
      rw [h1] at h
      cases h2 : VectorStore.convert_results rest scoreType with
      | error e => rw [h2] at h; exact absurd h (by simp)
      | ok rs =>
        rw [h2] at h
        injection h with h'
        subst h'
        obtain ⟨-, hsc, h0, h1'⟩ := mkSearchResult_ok _ _ _ h1
        exact List.Forall₂.cons ⟨hsc, hsc ▸ h0, hsc ▸ h1'⟩ (ih rs h2)

/-- C3: in vector mode every returned score equals `1 / (1 + distance)` and
lies in `[0, 1]`; in hybrid mode every returned score lies in `[0, 1]`; and
the `min_score` post-filter, applied after mode-specific scoring, keeps
exactly the results whose score is not strictly below the threshold. -/
theorem search_score_invariant :
    (∀ (raws : List RawResult) (res : List SearchResult),
      VectorStore.convert_results raws "distance" = .ok res →
      List.Forall₂ (fun (raw : RawResult) (r : SearchResult) =>
        r.score = 1 / (1 + raw.distance.getD 0) ∧
          0 ≤ r.score ∧ r.score ≤ 1) raws res) ∧
    (∀ (raws : List RawResult) (res : List SearchResult),
      VectorStore.convert_results raws "hybrid" = .ok res →
      ∀ r ∈ res, 0 ≤ r.score ∧ r.score ≤ 1) ∧
    (∀ (results : List SearchResult) (minScore : ℚ) (r : SearchResult),
      r ∈ VectorStore.post_filter results minScore ↔
        r ∈ results ∧ ¬ r.score < minScore) := by
  refine ⟨?_, ?_, ?_⟩
  · intro raws res h
    have h2 := convert_results_forall2 raws "distance" res h
    refine h2.imp ?_
    intro raw r hr
    refine ⟨?_, hr.2⟩
    rw [hr.1]
    rfl
  · intro raws res h r hr
    obtain ⟨raw, -, hmk⟩ := convert_results_ok_mem raws "hybrid" res h r hr
    obtain ⟨-, hsc, h0, h1⟩ := mkSearchResult_ok _ _ _ hmk
    exact ⟨hsc ▸ h0, hsc ▸ h1⟩
  · intro results minScore r
    unfold VectorStore.post_filter
    rw [List.mem_filter]
    simp [not_lt]

/-- C3 witness: a concrete vector-mode conversion and post-filter run,
obtained by applying `search_score_invariant`. -/
theorem search_score_invariant_witness :
    List.Forall₂ (fun (raw : RawResult) (r : SearchResult) =>
      r.score = 1 / (1 + raw.distance.getD 0) ∧ 0 ≤ r.score ∧ r.score ≤ 1)
      [⟨⟨[], "t", "a.py", 1, 2, "function", none, "python", "h", 0, none⟩,
        some 1, none⟩]
      [⟨⟨[], "t", "a.py", 1, 2, "function", none, "python", "h", 0, none⟩,
        1 / 2⟩] ∧
    (⟨⟨[], "t", "a.py", 1, 2, "function", none, "python", "h", 0, none⟩,
      (1 / 2 : ℚ)⟩ : SearchResult) ∈
      VectorStore.post_filter
        [⟨⟨[], "t", "a.py", 1, 2, "function", none, "python", "h", 0, none⟩,
          1 / 2⟩] (1 / 4) :=
  ⟨search_score_invariant.1 _ _ (by
    norm_num [VectorStore.convert_results, VectorStore.convertScore,
      mkSearchResult]),
    ((search_score_invariant.2.2 _ (1 / 4) _).mpr
      ⟨by simp, by norm_num⟩)⟩

/-- C10: every `SearchResult` the store constructs satisfies
`0 ≤ score ≤ 1` by model validation, in every mode including fts and
hybrid; a native engine relevance score outside `[0, 1]` makes the
construction raise a validation error instead of returning the score as an
opaque ordering key. -/
theorem searchresult_score_validated :
    (∀ (chunk : CodeChunk) (score : ℚ) (r : SearchResult),
      mkSearchResult chunk score = .ok r → 0 ≤ r.score ∧ r.score ≤ 1) ∧
    (∀ (chunk : CodeChunk) (score : ℚ), score < 0 ∨ 1 < score →
      mkSearchResult chunk score = .error "validation error: score") ∧
    (∀ (raws : List RawResult) (scoreType : String)
        (res : List SearchResult),
      VectorStore.convert_results raws scoreType = .ok res →
      ∀ r ∈ res, 0 ≤ r.score ∧ r.score ≤ 1) ∧
    (∀ (raw : RawResult) (rest : List RawResult),
      1 < VectorStore.convertScore raw "fts" →
      VectorStore.convert_results (raw :: rest) "fts" =
        .error "validation error: score") := by
  refine ⟨?_, ?_, ?_, ?_⟩
  · intro chunk score r h
    obtain ⟨-, hsc, h0, h1⟩ := mkSearchResult_ok _ _ _ h
    exact ⟨hsc ▸ h0, hsc ▸ h1⟩
  · intro chunk score h
    unfold mkSearchResult
    rw [if_neg]
    rcases h with h | h
    · exact fun hc => absurd hc.1 (not_le.mpr h)
    · exact fun hc => absurd hc.2 (not_le.mpr h)
  · intro raws scoreType res h r hr
    obtain ⟨raw, -, hmk⟩ := convert_results_ok_mem raws scoreType res h r hr
    obtain ⟨-, hsc, h0, h1⟩ := mkSearchResult_ok _ _ _ hmk
    exact ⟨hsc ▸ h0, hsc ▸ h1⟩
  · intro raw rest h
    unfold VectorStore.convert_results
    rw [show mkSearchResult raw.chunk (VectorStore.convertScore raw "fts") =
      .error "validation error: score" from ?_]
    · unfold mkSearchResult
      rw [if_neg]
      exact fun hc => absurd hc.2 (not_le.mpr h)

/-- C10 witness: applying `searchresult_score_validated` at concrete inputs,
in particular an fts row whose native score 3/2 raises instead of being
returned. -/
theorem searchresult_score_validated_witness :
    mkSearchResult
      ⟨[], "t", "a.py", 1, 2, "function", none, "python", "h", 0, none⟩
      (3 / 2) = .error "validation error: score" ∧
    VectorStore.convert_results
      [⟨⟨[], "t", "a.py", 1, 2, "function", none, "python", "h", 0, none⟩,
        none, some (3 / 2)⟩] "fts" = .error "validation error: score" :=
  ⟨searchresult_score_validated.2.1 _ (3 / 2) (Or.inr (by norm_num)),
    searchresult_score_validated.2.2.2 _ [] (by
      have h1 : ("fts" : String) ≠ "distance" := by decide
      norm_num [VectorStore.convertScore, h1])⟩

/-- C7 (amended): an explicit mode is used as given; with no explicit mode
the mode is inferred from Python truthiness (non-empty text and non-empty
vector gives hybrid, only a non-empty vector gives vector, only non-empty
text gives fts, neither fails); explicit vector mode fails exactly when
`query_vector` is `None`, explicit fts or hybrid mode fails exactly when
`query_text` is `None` (an empty string or empty list counts as absent for
inference but as present for validation). -/
theorem search_mode_resolution :
    (∀ (qt : Option String) (qv : Option (List ℚ)),
      VectorStore.searchRoute none qt qv =
        if truthyStr qt ∧ truthyVec qv then .ok "hybrid"
        else if truthyVec qv then .ok "vector"
        else if truthyStr qt then .ok "fts"
        else .error .noQuery) ∧
    (∀ (qt : Option String) (qv : Option (List ℚ)),
      VectorStore.searchRoute (some "vector") qt qv =
        if qv = none then .error .vectorRequired else .ok "vector") ∧
    (∀ (qt : Option String) (qv : Option (List ℚ)) (m : String),
      m = "fts" ∨ m = "hybrid" →
      VectorStore.searchRoute (some m) qt qv =
        if qt = none then .error .textRequired else .ok m) := by
  refine ⟨?_, ?_, ?_⟩
  · intro qt qv
    by_cases ht : truthyStr qt = true <;> by_cases hv : truthyVec qv = true
    · have hqt : qt ≠ none := by
        cases qt <;> simp_all [truthyStr]
      have hqv : qv ≠ none := by
        cases qv <;> simp_all [truthyVec]
      simp [VectorStore.searchRoute, ht, hv, hqt] <;> rfl
    · have hqt : qt ≠ none := by
        cases qt <;> simp_all [truthyStr]
      simp [VectorStore.searchRoute, ht, hv, hqt] <;> rfl
    · have hqv : qv ≠ none := by
        cases qv <;> simp_all [truthyVec]
      simp [VectorStore.searchRoute, ht, hv, hqv] <;> rfl
    · simp [VectorStore.searchRoute, ht, hv] <;> rfl
  · intro qt qv
    by_cases hqv : qv = none
    · simp [VectorStore.searchRoute, hqv] <;> rfl
    · simp [VectorStore.searchRoute, hqv] <;> rfl
  · intro qt qv m hm
    by_cases hqt : qt = none
    · rcases hm with hm | hm <;> subst hm <;>
        simp [VectorStore.searchRoute, hqt] <;> rfl
    · rcases hm with hm | hm <;> subst hm <;>
        simp [VectorStore.searchRoute, hqt] <;> rfl

/-- C7 witness: `search_mode_resolution` applied at concrete arguments. -/
theorem search_mode_resolution_witness :
    VectorStore.searchRoute (some "fts") none (some [1]) =
      .error .textRequired ∧
    VectorStore.searchRoute (some "hybrid") (some "q") none = .ok "hybrid" ∧
    VectorStore.searchRoute none (some "q") none = .ok "fts" :=
  ⟨by rw [search_mode_resolution.2.2 none (some [1]) "fts" (Or.inl rfl)]; rfl,
    by rw [search_mode_resolution.2.2 (some "q") none "hybrid" (Or.inr rfl)]
       rfl,
    by rw [search_mode_resolution.1 (some "q") none]; rfl⟩

/-- C7 counterexample: with no explicit mode, an empty (but supplied)
`query_text` and no vector, the call fails even though `query_text` was
supplied, contradicting the claim that the call fails only when neither
input is supplied; and with an empty text plus a vector the mode resolves
to vector, not hybrid, contradicting the claim's both-present-gives-hybrid
inference. -/
theorem search_mode_empty_text_mismatch :
    VectorStore.searchRoute none (some "") none = .error .noQuery ∧
    (some "" : Option String) ≠ none ∧
    VectorStore.searchRoute none (some "") (some [1]) = .ok "vector" :=
  ⟨rfl, by simp, rfl⟩

/-- C8 (amended): context expansion returns exactly one result per input
and keeps a result unmodified when its file is missing or unreadable; for a
result whose file exists, is readable and non-empty (and whose fields pass
model validation: `end_line ≥ 1`, score in `[0, 1]`), only the chunk text
and line range are replaced, the range clamped to
`[max 1 (start - before), min lineCount (end + after)]`, every other field
and the score left unchanged.  When the rebuilt chunk would fail validation
(an empty file forces `end_line = 0`), the exception is caught and the
original result is returned unmodified. -/
theorem expand_context_frame :
    (∀ (fs : FileSystem) (b a : Nat) (results : List SearchResult),
      (ResultEnhancer.expand_context fs b a results).length =
        results.length) ∧
    (∀ (fs : FileSystem) (b a : Nat) (r : SearchResult),
      fs r.chunk.path = none →
      ResultEnhancer.expandOne fs b a r = r) ∧
    (∀ (fs : FileSystem) (b a : Nat) (r : SearchResult)
        (lines : List String),
      fs r.chunk.path = some lines →
      1 ≤ lines.length → 1 ≤ r.chunk.end_line →
      0 ≤ r.score → r.score ≤ 1 →
      ResultEnhancer.expandOne fs b a r =
        { chunk :=
            { r.chunk with
              text := String.join
                ((lines.drop (max 1 (r.chunk.start_line - b) - 1)).take
                  (min lines.length (r.chunk.end_line + a) -
                    (max 1 (r.chunk.start_line - b) - 1)))
              start_line := max 1 (r.chunk.start_line - b)
              end_line := min lines.length (r.chunk.end_line + a) }
          score := r.score }) := by
  refine ⟨?_, ?_, ?_⟩
  · intro fs b a results
    unfold ResultEnhancer.expand_context
    exact List.length_map results _
  · intro fs b a r h
    unfold ResultEnhancer.expandOne
    rw [h]
  · intro fs b a r lines hfs hlen hend h0 h1
    unfold ResultEnhancer.expandOne
    rw [hfs]
    have hcond : 1 ≤ max 1 (r.chunk.start_line - b) ∧
        1 ≤ min lines.length (r.chunk.end_line + a) ∧
        0 ≤ r.score ∧ r.score ≤ 1 :=
      ⟨le_max_left 1 _, le_min hlen (le_trans hend (Nat.le_add_right _ _)),
        h0, h1⟩
    simp only [hcond, if_pos, and_true, true_and, hcond.1, hcond.2.1, h0, h1]

/-- C8 witness: `expand_context_frame` applied at a concrete three-line
file and a concrete missing file. -/
theorem expand_context_frame_witness :
    ResultEnhancer.expandOne
      (fun p => if p = "a.py" then some ["l1\n", "l2\n", "l3\n"] else none)
      1 1
      ⟨⟨[], "l2\n", "a.py", 2, 2, "function", none, "python", "h", 0, none⟩,
        1 / 2⟩ =
      ⟨⟨[], "l1\nl2\nl3\n", "a.py", 1, 3, "function", none, "python", "h",
        0, none⟩, 1 / 2⟩ ∧
    ResultEnhancer.expandOne
      (fun p => if p = "a.py" then some ["l1\n", "l2\n", "l3\n"] else none)
      1 1
      ⟨⟨[], "t", "gone.py", 2, 2, "function", none, "python", "h", 0, none⟩,
        1 / 2⟩ =
      ⟨⟨[], "t", "gone.py", 2, 2, "function", none, "python", "h", 0, none⟩,
        1 / 2⟩ := by
  constructor
  · rw [expand_context_frame.2.2
      (fun p => if p = "a.py" then some ["l1\n", "l2\n", "l3\n"] else none)
      1 1
      ⟨⟨[], "l2\n", "a.py", 2, 2, "function", none, "python", "h", 0, none⟩,
        1 / 2⟩
      ["l1\n", "l2\n", "l3\n"] (by simp) (by simp) (by simp) (by norm_num)
      (by norm_num)]
    rfl
  · exact expand_context_frame.2.1
      (fun p => if p = "a.py" then some ["l1\n", "l2\n", "l3\n"] else none)
      1 1
      ⟨⟨[], "t", "gone.py", 2, 2, "function", none, "python", "h", 0, none⟩,
        1 / 2⟩ (by simp)

/-- C8 counterexample: a result whose source file exists and is readable
but empty is returned unmodified (the rebuilt chunk would need
`end_line = min 0 (1 + 3) = 0`, which fails model validation and the
exception handler keeps the original), contradicting the claim that every
result with an existing readable file gets its range replaced by the
clamped range. -/
theorem expand_context_empty_file_keeps_original :
    ResultEnhancer.expandOne (fun _ => some []) 3 3
      ⟨⟨[], "t", "a.py", 1, 1, "function", none, "python", "h", 0, none⟩,
        1 / 2⟩ =
      ⟨⟨[], "t", "a.py", 1, 1, "function", none, "python", "h", 0, none⟩,
        1 / 2⟩ ∧
    (fun (_ : String) => some ([] : List String)) "a.py" = some [] ∧
    min ([] : List String).length (1 + 3) = 0 ∧
    (⟨⟨[], "t", "a.py", 1, 1, "function", none, "python", "h", 0, none⟩,
      (1 / 2 : ℚ)⟩ : SearchResult).chunk.end_line ≠ 0 := by
  refine ⟨?_, rfl, rfl, by simp⟩
  unfold ResultEnhancer.expandOne
  norm_num

/-- C2 (code bug): `delete_by_path` does not invalidate the query cache
(`clear_cache` is called only in `add_chunks`).  At this concrete input the
deletion empties the table but leaves the cache entry intact, so a
subsequent cached search returns the stale result for the deleted path
while the same search with the cache disabled returns nothing; `add_chunks`
by contrast does clear the cache. -/
theorem delete_by_path_leaves_stale_cache :
    (VectorStore.delete_by_path
      ⟨[⟨[], "t", "a.py", 1, 1, "function", none, "python", "h1", 0, none⟩],
        [("k",
          [⟨⟨[], "t", "a.py", 1, 1, "function", none, "python", "h1", 0,
            none⟩, 1⟩])]⟩ "a.py").1 =
      ⟨[], [("k",
        [⟨⟨[], "t", "a.py", 1, 1, "function", none, "python", "h1", 0,
          none⟩, 1⟩])]⟩ ∧
    (VectorStore.searchCached
      ⟨[], [("k",
        [⟨⟨[], "t", "a.py", 1, 1, "function", none, "python", "h1", 0,
          none⟩, 1⟩])]⟩ "k" (fun _ => []) true).1 =
      [⟨⟨[], "t", "a.py", 1, 1, "function", none, "python", "h1", 0,
        none⟩, 1⟩] ∧
    (VectorStore.searchCached
      ⟨[], [("k",
        [⟨⟨[], "t", "a.py", 1, 1, "function", none, "python", "h1", 0,
          none⟩, 1⟩])]⟩ "k" (fun _ => []) false).1 = [] ∧
    (VectorStore.add_chunks
      ⟨[], [("k",
        [⟨⟨[], "t", "a.py", 1, 1, "function", none, "python", "h1", 0,
          none⟩, 1⟩])]⟩
      [⟨[], "t", "a.py", 1, 1, "function", none, "python", "h1", 0,
        none⟩]).cache = [] :=
  ⟨rfl, rfl, rfl, rfl⟩

theorem add_chunks_nil (st : VectorStoreState) :
    VectorStore.add_chunks st [] = st := by
  unfold VectorStore.add_chunks
  rw [if_pos rfl]

theorem index_file_whitespace (hashFn : String → String)
    (chunkFn : String → List (String × ChunkMeta)) (embed : String → List ℚ)
    (language : String) (branch : Option String) (indexedAt : ℚ)
    (st : VectorStoreState) (relPath content : String)
    (hws : pyStrip content = "") :
    Indexer.index_file hashFn chunkFn embed language branch indexedAt st
      relPath content = (st, 0) := by
  unfold Indexer.index_file
  rw [if_pos hws]

theorem index_file_replaces (hashFn : String → String)
    (chunkFn : String → List (String × ChunkMeta)) (embed : String → List ℚ)
    (language : String) (branch : Option String) (indexedAt : ℚ)
    (st : VectorStoreState) (relPath content : String)
    (hws : pyStrip content ≠ "") :
    Indexer.index_file hashFn chunkFn embed language branch indexedAt st
      relPath content =
      (VectorStore.add_chunks (VectorStore.delete_by_path st relPath).1
        ((chunkFn content).map (Indexer.mkChunk embed language branch
          indexedAt relPath (hashFn content))),
        (chunkFn content).length) := by
  unfold Indexer.index_file
  rw [if_neg hws]
  cases hcd : chunkFn content with
  | nil => simp [hcd, add_chunks_nil]
  | cons a t => simp [hcd]

theorem get_file_hash_delete (st : VectorStoreState) (p : String) :
    VectorStore.get_file_hash (VectorStore.delete_by_path st p).1 p =
      none := by
  unfold VectorStore.get_file_hash VectorStore.delete_by_path
  have hnil : (st.rows.filter (fun c => c.path ≠ p)).filter
      (fun c => c.path = p) = [] := by
    rw [List.filter_eq_nil_iff]
    intro a ha
    have := (List.mem_filter.mp ha).2
    simp_all
  simp [hnil]

theorem delete_by_path_idem (st : VectorStoreState) (p : String) :
    (VectorStore.delete_by_path (VectorStore.delete_by_path st p).1 p).1 =
      (VectorStore.delete_by_path st p).1 := by
  unfold VectorStore.delete_by_path
  simp [List.filter_filter]

/-- C1 (amended): re-indexing an unchanged file immediately after any
indexing step, with `force = false`, leaves the store (and so the total
chunk count) unchanged; a file is skipped exactly when `force` is false and
the freshly computed hash equals the stored hash for its path; in every
other case with non-whitespace content, all existing chunks for the path
are deleted before the new chunks are inserted; a whitespace-only file is
skipped early without deleting its existing chunks. -/
theorem incremental_index_roundtrip (hashFn : String → String)
    (chunkFn : String → List (String × ChunkMeta)) (embed : String → List ℚ)
    (language : String) (branch : Option String) (indexedAt : ℚ)
    (force : Bool) (st : VectorStoreState) (relPath content : String) :
    ((Indexer.index_file_step hashFn chunkFn embed language branch indexedAt
        false
        (Indexer.index_file_step hashFn chunkFn embed language branch
          indexedAt force st relPath content).1 relPath content).1 =
      (Indexer.index_file_step hashFn chunkFn embed language branch indexedAt
        force st relPath content).1) ∧
    ((Indexer.index_file_step hashFn chunkFn embed language branch indexedAt
        false
        (Indexer.index_file_step hashFn chunkFn embed language branch
          indexedAt force st relPath content).1 relPath
        content).1.rows.length =
      (Indexer.index_file_step hashFn chunkFn embed language branch indexedAt
        force st relPath content).1.rows.length) ∧
    (force = false →
      VectorStore.get_file_hash st relPath = some (hashFn content) →
      Indexer.index_file_step hashFn chunkFn embed language branch indexedAt
        force st relPath content = (st, none)) ∧
    (pyStrip content ≠ "" →
      Indexer.index_file hashFn chunkFn embed language branch indexedAt st
        relPath content =
        (VectorStore.add_chunks (VectorStore.delete_by_path st relPath).1
          ((chunkFn content).map (Indexer.mkChunk embed language branch
            indexedAt relPath (hashFn content))),
          (chunkFn content).length)) := by
  have main : (Indexer.index_file_step hashFn chunkFn embed language branch
      indexedAt false
      (Indexer.index_file_step hashFn chunkFn embed language branch
        indexedAt force st relPath content).1 relPath content).1 =
      (Indexer.index_file_step hashFn chunkFn embed language branch indexedAt
        force st relPath content).1 := by
    by_cases hskip : (¬ force = true) ∧
        VectorStore.get_file_hash st relPath = some (hashFn content)
    · have e1 : Indexer.index_file_step hashFn chunkFn embed language branch
          indexedAt force st relPath content = (st, none) := by
        unfold Indexer.index_file_step
        rw [if_pos hskip]
      rw [e1]
      show (Indexer.index_file_step hashFn chunkFn embed language branch
        indexedAt false st relPath content).1 = st
      unfold Indexer.index_file_step
      rw [if_pos ⟨by simp, hskip.2⟩]
    · have e1 : Indexer.index_file_step hashFn chunkFn embed language branch
          indexedAt force st relPath content =
          ((Indexer.index_file hashFn chunkFn embed language branch indexedAt
            st relPath content).1,
            some (Indexer.index_file hashFn chunkFn embed language branch
              indexedAt st relPath content).2) := by
        unfold Indexer.index_file_step
        rw [if_neg hskip]
      rw [e1]
      by_cases hws : pyStrip content = ""
      · rw [index_file_whitespace hashFn chunkFn embed language branch
          indexedAt st relPath content hws]
        show (Indexer.index_file_step hashFn chunkFn embed language branch
          indexedAt false st relPath content).1 = st
        unfold Indexer.index_file_step
        by_cases hs2 : VectorStore.get_file_hash st relPath =
            some (hashFn content)
        · rw [if_pos ⟨by simp, hs2⟩]
        · rw [if_neg (by simp [hs2])]
          rw [index_file_whitespace hashFn chunkFn embed language branch
            indexedAt st relPath content hws]
      · rw [index_file_replaces hashFn chunkFn embed language branch
          indexedAt st relPath content hws]
        cases hcd : chunkFn content with
        | nil =>
          simp only [hcd, List.map_nil, add_chunks_nil]
          show (Indexer.index_file_step hashFn chunkFn embed language branch
            indexedAt false (VectorStore.delete_by_path st relPath).1 relPath
            content).1 = (VectorStore.delete_by_path st relPath).1
          unfold Indexer.index_file_step
          rw [if_neg (by simp [get_file_hash_delete])]
          rw [index_file_replaces hashFn chunkFn embed language branch
            indexedAt (VectorStore.delete_by_path st relPath).1 relPath
            content hws]
          simp only [hcd, List.map_nil, add_chunks_nil, delete_by_path_idem]
        | cons a t =>
          have hget : VectorStore.get_file_hash
              (VectorStore.add_chunks
                (VectorStore.delete_by_path st relPath).1
                ((a :: t).map (Indexer.mkChunk embed language branch
                  indexedAt relPath (hashFn content)))) relPath =
              some (hashFn content) := by
            unfold VectorStore.add_chunks
            rw [if_neg (by simp)]
            unfold VectorStore.get_file_hash
            have hdel : ((VectorStore.delete_by_path st
                relPath).1.rows.filter (fun c => c.path = relPath)) = [] := by
              unfold VectorStore.delete_by_path
              rw [List.filter_eq_nil_iff]
              intro c hc
              have := (List.mem_filter.mp hc).2
              simp_all
            have hnew : (((a :: t).map (Indexer.mkChunk embed
                language branch indexedAt relPath
                (hashFn content))).filter (fun c => c.path = relPath)) =
                (a :: t).map (Indexer.mkChunk embed language branch
                  indexedAt relPath (hashFn content)) := by
              rw [List.filter_eq_self]
              intro c hc
              obtain ⟨td, -, rfl⟩ := List.mem_map.mp hc
              simp [Indexer.mkChunk]
            simp only [List.filter_append, hdel, hnew, List.nil_append,
              List.map_cons, List.head?_cons, Option.map_some]
            simp [Indexer.mkChunk]
          show (Indexer.index_file_step hashFn chunkFn embed language branch
            indexedAt false (VectorStore.add_chunks
              (VectorStore.delete_by_path st relPath).1
              ((a :: t).map (Indexer.mkChunk embed language branch indexedAt
                relPath (hashFn content)))) relPath content).1 =
            VectorStore.add_chunks (VectorStore.delete_by_path st relPath).1
              ((a :: t).map (Indexer.mkChunk embed language branch indexedAt
                relPath (hashFn content)))
          unfold Indexer.index_file_step
          rw [if_pos ⟨by simp, hget⟩]
  refine ⟨main, congrArg (fun s => s.rows.length) main, ?_, ?_⟩
  · intro hf hh
    unfold Indexer.index_file_step
    rw [if_pos ⟨by simp [hf], hh⟩]
  · intro hws
    exact index_file_replaces hashFn chunkFn embed language branch indexedAt
      st relPath content hws

/-- C1 witness: `incremental_index_roundtrip` applied at concrete inputs —
an unchanged stored file is skipped, and indexing a new file deletes then
inserts. -/
theorem incremental_index_roundtrip_witness :
    Indexer.index_file_step (fun s => s)
      (fun s => [(s, ⟨1, 1, "paragraph", none⟩)]) (fun _ => []) "text" none 0
      false
      ⟨[⟨[], "hello", "a.txt", 1, 1, "paragraph", none, "text", "hello", 0,
        none⟩], []⟩ "a.txt" "hello" =
      (⟨[⟨[], "hello", "a.txt", 1, 1, "paragraph", none, "text", "hello", 0,
        none⟩], []⟩, none) ∧
    Indexer.index_file (fun s => s)
      (fun s => [(s, ⟨1, 1, "paragraph", none⟩)]) (fun _ => []) "text" none 0
      ⟨[], []⟩ "a.txt" "hello" =
      (VectorStore.add_chunks (VectorStore.delete_by_path ⟨[], []⟩ "a.txt").1
        ([("hello", ⟨1, 1, "paragraph", none⟩)].map
          (Indexer.mkChunk (fun _ => []) "text" none 0 "a.txt" "hello")),
        1) :=
  ⟨(incremental_index_roundtrip (fun s => s)
      (fun s => [(s, ⟨1, 1, "paragraph", none⟩)]) (fun _ => []) "text" none 0
      false
      ⟨[⟨[], "hello", "a.txt", 1, 1, "paragraph", none, "text", "hello", 0,
        none⟩], []⟩ "a.txt" "hello").2.2.1 rfl rfl,
    (incremental_index_roundtrip (fun s => s)
      (fun s => [(s, ⟨1, 1, "paragraph", none⟩)]) (fun _ => []) "text" none 0
      false ⟨[], []⟩ "a.txt" "hello").2.2.2 (by decide)⟩

/-- C1 counterexample: a force re-index of a whitespace-only file returns
before the per-path deletion, leaving the existing chunks for that path in
the store, while the claim requires that in every non-skip case all
existing chunks for the path are deleted before inserting. -/
theorem whitespace_force_reindex_no_delete :
    (Indexer.index_file_step (fun s => s) (fun _ => []) (fun _ => []) "text"
      none 0 true
      ⟨[⟨[], "old", "a.txt", 1, 1, "paragraph", none, "text", "oldhash", 0,
        none⟩], []⟩ "a.txt" " ").1 =
      ⟨[⟨[], "old", "a.txt", 1, 1, "paragraph", none, "text", "oldhash", 0,
        none⟩], []⟩ ∧
    pyStrip " " = "" ∧
    (⟨[], "old", "a.txt", 1, 1, "paragraph", none, "text", "oldhash", 0,
      none⟩ : CodeChunk).path = "a.txt" :=
  ⟨rfl, rfl, rfl⟩

theorem splitLoop_fuel_stable (maxChunkSize chunkOverlap : Nat)
    (words : List String) (hstep : 0 < maxChunkSize - chunkOverlap) :
    ∀ (f1 f2 i cl : Nat), words.length - i ≤ f1 → words.length - i ≤ f2 →
      FallbackChunker.splitLoop maxChunkSize chunkOverlap words f1 i cl =
        FallbackChunker.splitLoop maxChunkSize chunkOverlap words f2 i cl := by
  intro f1
  induction f1 with
  | zero =>
    intro f2 i cl h1 h2
    have hi : ¬ i < words.length := by omega
    cases f2 with
    | zero => rfl
    | succ f2' =>
      show _ = FallbackChunker.splitLoop maxChunkSize chunkOverlap words
        (f2' + 1) i cl
      unfold FallbackChunker.splitLoop
      rw [if_neg hi]
  | succ f1' ih =>
    intro f2 i cl h1 h2
    cases f2 with
    | zero =>
      have hi : ¬ i < words.length := by omega
      show FallbackChunker.splitLoop maxChunkSize chunkOverlap words
        (f1' + 1) i cl = _
      unfold FallbackChunker.splitLoop
      rw [if_neg hi]
    | succ f2' =>
      by_cases hi : i < words.length
      · show FallbackChunker.splitLoop maxChunkSize chunkOverlap words
          (f1' + 1) i cl = FallbackChunker.splitLoop maxChunkSize chunkOverlap
          words (f2' + 1) i cl
        simp only [FallbackChunker.splitLoop, if_pos hi]
        exact congrArg (List.cons _)
          (ih f2' (i + (maxChunkSize - chunkOverlap)) _ (by omega) (by omega))
      · show FallbackChunker.splitLoop maxChunkSize chunkOverlap words
          (f1' + 1) i cl = FallbackChunker.splitLoop maxChunkSize chunkOverlap
          words (f2' + 1) i cl
        simp only [FallbackChunker.splitLoop, if_neg hi]

theorem ceil_div_step_succ (len i step : Nat) (hstep : 0 < step)
    (h : i < len) :
    (len - i + step - 1) / step = (len - (i + step) + step - 1) / step + 1 := by
  have ha : 0 < len - i := by omega
  set a := len - i with hadef
  have hcore : a + step - 1 = (a - 1) + step := by omega
  rw [hcore, Nat.add_div_right _ hstep]
  have hsub : len - (i + step) = a - step := by omega
  rw [hsub]
  rcases le_or_lt a step with hle | hgt
  · have h1 : a - step = 0 := by omega
    rw [h1]
    have h2 : (0 + step - 1) / step = 0 := Nat.div_eq_of_lt (by omega)
    have h3 : (a - 1) / step = 0 := Nat.div_eq_of_lt (by omega)
    rw [h2, h3]
  · have h4 : a - step + step - 1 = (a - 1 - step) + step := by omega
    rw [h4, Nat.add_div_right _ hstep]
    have h5 : a - 1 = (a - 1 - step) + step := by omega
    rw [show (a - 1) / step = ((a - 1 - step) + step) / step from by rw [← h5],
      Nat.add_div_right _ hstep]

theorem splitLoop_windows (maxChunkSize chunkOverlap : Nat)
    (words : List String) (hstep : 0 < maxChunkSize - chunkOverlap) :
    ∀ (fuel i cl : Nat), words.length - i ≤ fuel →
      (FallbackChunker.splitLoop maxChunkSize chunkOverlap words fuel i
        cl).map Prod.fst =
      (List.range ((words.length - i + (maxChunkSize - chunkOverlap) - 1) /
          (maxChunkSize - chunkOverlap))).map
        (fun k => joinSp ((words.drop
          (i + k * (maxChunkSize - chunkOverlap))).take maxChunkSize)) := by
  intro fuel
  induction fuel with
  | zero =>
    intro i cl h
    have h0 : words.length - i = 0 := by omega
    rw [h0]
    have : (0 + (maxChunkSize - chunkOverlap) - 1) /
        (maxChunkSize - chunkOverlap) = 0 := Nat.div_eq_of_lt (by omega)
    rw [this]
    rfl
  | succ fuel' ih =>
    intro i cl h
    by_cases hi : i < words.length
    · show ((FallbackChunker.splitLoop maxChunkSize chunkOverlap words
        (fuel' + 1) i cl).map Prod.fst) = _
      simp only [FallbackChunker.splitLoop, if_pos hi, List.map_cons]
      rw [ih (i + (maxChunkSize - chunkOverlap)) _ (by omega)]
      rw [ceil_div_step_succ words.length i (maxChunkSize - chunkOverlap)
        hstep hi]
      rw [List.range_succ_eq_map, List.map_cons, List.map_map]
      congr 1
      · rw [Nat.zero_mul, Nat.add_zero]
      · apply List.map_congr_left
        intro k hk
        simp only [Function.comp]
        have harith : i + (maxChunkSize - chunkOverlap) +
            k * (maxChunkSize - chunkOverlap) =
            i + (k + 1) * (maxChunkSize - chunkOverlap) := by ring
        rw [harith]
    · show ((FallbackChunker.splitLoop maxChunkSize chunkOverlap words
        (fuel' + 1) i cl).map Prod.fst) = _
      simp only [FallbackChunker.splitLoop, if_neg hi, List.map_nil]
      have h0 : words.length - i = 0 := by omega
      rw [h0]
      have : (0 + (maxChunkSize - chunkOverlap) - 1) /
          (maxChunkSize - chunkOverlap) = 0 := Nat.div_eq_of_lt (by omega)
      rw [this]
      rfl

/-- C9: for a paragraph whose word count exceeds `max_chunk_size`, under
the precondition `chunk_overlap < max_chunk_size`, the splitting loop
terminates (its result is independent of any sufficient fuel), produces
exactly the windows starting at multiples of
`max_chunk_size - chunk_overlap`, each window holding at most
`max_chunk_size` words, and the windows together cover every word of the
paragraph. -/
theorem window_split_termination (maxChunkSize chunkOverlap : Nat)
    (paragraph : String) (startLine : Nat)
    (hov : chunkOverlap < maxChunkSize)
    (hbig : maxChunkSize < (pyWords paragraph).length) :
    (∀ fuel, (pyWords paragraph).length ≤ fuel →
      FallbackChunker.splitLoop maxChunkSize chunkOverlap (pyWords paragraph)
        fuel 0 startLine =
      FallbackChunker.split_large_paragraph maxChunkSize chunkOverlap
        paragraph startLine) ∧
    ((FallbackChunker.split_large_paragraph maxChunkSize chunkOverlap
        paragraph startLine).map Prod.fst =
      (List.range (((pyWords paragraph).length +
          (maxChunkSize - chunkOverlap) - 1) /
          (maxChunkSize - chunkOverlap))).map
        (fun k => joinSp (((pyWords paragraph).drop
          (k * (maxChunkSize - chunkOverlap))).take maxChunkSize))) ∧
    (∀ k, (((pyWords paragraph).drop
        (k * (maxChunkSize - chunkOverlap))).take maxChunkSize).length ≤
      maxChunkSize) ∧
    (∀ j, j < (pyWords paragraph).length →
      ∃ k, k < ((pyWords paragraph).length +
          (maxChunkSize - chunkOverlap) - 1) /
          (maxChunkSize - chunkOverlap) ∧
        k * (maxChunkSize - chunkOverlap) ≤ j ∧
        j < k * (maxChunkSize - chunkOverlap) + maxChunkSize) := by
  have hstep : 0 < maxChunkSize - chunkOverlap := by omega
  refine ⟨?_, ?_, ?_, ?_⟩
  · intro fuel hfuel
    unfold FallbackChunker.split_large_paragraph
    exact splitLoop_fuel_stable maxChunkSize chunkOverlap (pyWords paragraph)
      hstep fuel (pyWords paragraph).length 0 startLine (by omega) (by omega)
  · unfold FallbackChunker.split_large_paragraph
    have h := splitLoop_windows maxChunkSize chunkOverlap (pyWords paragraph)
      hstep (pyWords paragraph).length 0 startLine (by omega)
    simpa using h
  · intro k
    rw [List.length_take]
    exact min_le_left _ _
  · intro j hj
    set step := maxChunkSize - chunkOverlap with hstepdef
    refine ⟨j / step, ?_, Nat.div_mul_le_self j step, ?_⟩
    · have h1 : j / step ≤ ((pyWords paragraph).length - 1) / step :=
        Nat.div_le_div_right (by omega)
      have h2 : (pyWords paragraph).length + step - 1 =
          ((pyWords paragraph).length - 1) + step := by omega
      rw [h2, Nat.add_div_right _ hstep]
      omega
    · have hmod : j % step < step := Nat.mod_lt _ hstep
      have hdm : j / step * step + j % step = j := Nat.div_add_mod' j step
      omega

/-- C9 witness: `window_split_termination` applied to a five-word paragraph
with window size 3 and overlap 1. -/
theorem window_split_termination_witness :
    FallbackChunker.splitLoop 3 1 (pyWords "w1 w2 w3 w4 w5") 5 0 1 =
      FallbackChunker.split_large_paragraph 3 1 "w1 w2 w3 w4 w5" 1 ∧
    (FallbackChunker.split_large_paragraph 3 1 "w1 w2 w3 w4 w5" 1).map
        Prod.fst =
      (List.range 3).map (fun k =>
        joinSp (((pyWords "w1 w2 w3 w4 w5").drop (k * 2)).take 3)) ∧
    ∃ k, k < 3 ∧ k * 2 ≤ 4 ∧ 4 < k * 2 + 3 :=
  ⟨(window_split_termination 3 1 "w1 w2 w3 w4 w5" 1 (by decide)
      (by decide)).1 5 (by decide),
    (window_split_termination 3 1 "w1 w2 w3 w4 w5" 1 (by decide)
      (by decide)).2.1,
    (window_split_termination 3 1 "w1 w2 w3 w4 w5" 1 (by decide)
      (by decide)).2.2.2 4 (by decide)⟩

theorem calculate_overlap_symm (s1 e1 s2 e2 : Int) :
    ResultEnhancer.calculate_overlap s1 e1 s2 e2 =
      ResultEnhancer.calculate_overlap s2 e2 s1 e1 := by
  simp only [ResultEnhancer.calculate_overlap]
  rw [max_comm s1 s2, min_comm e1 e2,
    min_comm (e1 - s1 + 1) (e2 - s2 + 1)]

theorem resultOverlap_symm (a b : SearchResult) :
    ResultEnhancer.resultOverlap a b = ResultEnhancer.resultOverlap b a :=
  calculate_overlap_symm _ _ _ _

theorem greedy_foldl_mem (th : ℚ) :
    ∀ (l acc : List SearchResult) (x : SearchResult),
      x ∈ l.foldl (fun kept r =>
        if kept.any (fun k => th ≤ ResultEnhancer.resultOverlap r k)
        then kept else kept ++ [r]) acc →
      x ∈ acc ∨ x ∈ l := by
  intro l
  induction l with
  | nil => intro acc x h; exact Or.inl h
  | cons a t ih =>
    intro acc x h
    simp only [List.foldl_cons] at h
    rcases ih _ x h with hacc | ht
    · by_cases hc : (acc.any
          (fun k => th ≤ ResultEnhancer.resultOverlap a k)) = true
      · rw [if_pos hc] at hacc
        exact Or.inl hacc
      · rw [if_neg hc] at hacc
        rcases List.mem_append.mp hacc with h1 | h2
        · exact Or.inl h1
        · exact Or.inr (by simp_all)
    · exact Or.inr (List.mem_cons_of_mem a ht)

theorem greedyKeep_subset (l : List SearchResult) (th : ℚ)
    (x : SearchResult) (h : x ∈ ResultEnhancer.greedyKeep l th) : x ∈ l :=
  (greedy_foldl_mem th l [] x h).resolve_left (by simp)

theorem greedy_foldl_pairwise (th : ℚ) :
    ∀ (l acc : List SearchResult),
      acc.Pairwise (fun a b => ResultEnhancer.resultOverlap b a < th) →
      (l.foldl (fun kept r =>
        if kept.any (fun k => th ≤ ResultEnhancer.resultOverlap r k)
        then kept else kept ++ [r]) acc).Pairwise
        (fun a b => ResultEnhancer.resultOverlap b a < th) := by
  intro l
  induction l with
  | nil => intro acc h; exact h
  | cons a t ih =>
    intro acc hacc
    simp only [List.foldl_cons]
    apply ih
    by_cases hc : (acc.any
        (fun k => th ≤ ResultEnhancer.resultOverlap a k)) = true
    · rw [if_pos hc]; exact hacc
    · rw [if_neg hc]
      rw [List.pairwise_append]
      refine ⟨hacc, List.pairwise_singleton _ _, ?_⟩
      intro x hx b hb
      rw [List.mem_singleton] at hb
      subst hb
      have := List.any_eq_true.not.mp hc
      push_neg at this
      have hx' := this x hx
      exact not_le.mp (fun hle => hx' (decide_eq_true hle))

theorem greedyKeep_pairwise (l : List SearchResult) (th : ℚ) :
    (ResultEnhancer.greedyKeep l th).Pairwise
      (fun a b => ResultEnhancer.resultOverlap b a < th) :=
  greedy_foldl_pairwise th l [] List.Pairwise.nil

theorem groupPaths_foldl_nodup :
    ∀ (l : List SearchResult) (acc : List String), acc.Nodup →
      (l.foldl (fun acc r =>
        if r.chunk.path ∈ acc then acc else acc ++ [r.chunk.path])
        acc).Nodup := by
  intro l
  induction l with
  | nil => intro acc h; exact h
  | cons a t ih =>
    intro acc hacc
    simp only [List.foldl_cons]
    apply ih
    by_cases hc : a.chunk.path ∈ acc
    · rw [if_pos hc]; exact hacc
    · rw [if_neg hc]
      show (acc ++ [a.chunk.path]).Pairwise (fun x y => x ≠ y)
      rw [List.pairwise_append]
      refine ⟨hacc, List.pairwise_singleton _ _, ?_⟩
      intro x hx b hb
      rw [List.mem_singleton] at hb
      subst hb
      exact fun he => hc (he ▸ hx)

theorem groupPaths_nodup (results : List SearchResult) :
    (ResultEnhancer.groupPaths results).Nodup :=
  groupPaths_foldl_nodup results [] List.nodup_nil

instance : IsTotal SearchResult (fun a b => b.score ≤ a.score) :=
  ⟨fun a b => le_total b.score a.score⟩

instance : IsTrans SearchResult (fun a b => b.score ≤ a.score) :=
  ⟨fun _ _ _ h1 h2 => le_trans h2 h1⟩

theorem greedyKeep_path (results : List SearchResult) (th : ℚ) (p : String)
    (x : SearchResult)
    (hx : x ∈ ResultEnhancer.greedyKeep
      (ResultEnhancer.sortByScoreDesc
        (results.filter (fun r => r.chunk.path = p))) th) :
    x.chunk.path = p := by
  have h1 := greedyKeep_subset _ _ _ hx
  unfold ResultEnhancer.sortByScoreDesc at h1
  rw [List.mem_insertionSort] at h1
  have h2 := (List.mem_filter.mp h1).2
  exact of_decide_eq_true h2

/-- C4: de-duplication only returns input results; any two returned results
from the same path overlap strictly below the threshold; the output is
sorted by score descending; two same-path results with overlap at least the
threshold collapse to the single higher-scoring one (the first on a tie);
two results from different paths never collapse; overlap is intersection
length over the smaller range's length, 0 for disjoint ranges and 1 when
one range lies fully inside the other. -/
theorem deduplicate_characterization :
    (∀ (results : List SearchResult) (th : ℚ) (r : SearchResult),
      r ∈ ResultEnhancer.deduplicate results th → r ∈ results) ∧
    (∀ (results : List SearchResult) (th : ℚ),
      (ResultEnhancer.deduplicate results th).Pairwise
        (fun a b => a.chunk.path = b.chunk.path →
          ResultEnhancer.resultOverlap a b < th)) ∧
    (∀ (results : List SearchResult) (th : ℚ),
      (ResultEnhancer.deduplicate results th).Sorted
        (fun a b => b.score ≤ a.score)) ∧
    (∀ (r1 r2 : SearchResult) (th : ℚ),
      r1.chunk.path = r2.chunk.path →
      th ≤ ResultEnhancer.resultOverlap r1 r2 →
      ResultEnhancer.deduplicate [r1, r2] th =
        [if r2.score ≤ r1.score then r1 else r2]) ∧
    (∀ (r1 r2 : SearchResult) (th : ℚ),
      r1.chunk.path ≠ r2.chunk.path →
      r1 ∈ ResultEnhancer.deduplicate [r1, r2] th ∧
      r2 ∈ ResultEnhancer.deduplicate [r1, r2] th ∧
      (ResultEnhancer.deduplicate [r1, r2] th).length = 2) ∧
    (∀ s1 e1 s2 e2 : Int, s1 ≤ e1 → s2 ≤ e2 → (e1 < s2 ∨ e2 < s1) →
      ResultEnhancer.calculate_overlap s1 e1 s2 e2 = 0) ∧
    (∀ s1 e1 s2 e2 : Int, s2 ≤ e2 → s1 ≤ s2 → e2 ≤ e1 →
      ResultEnhancer.calculate_overlap s1 e1 s2 e2 = 1) := by
  refine ⟨?_, ?_, ?_, ?_, ?_, ?_, ?_⟩
  · intro results th r h
    unfold ResultEnhancer.deduplicate at h
    by_cases hres : results = []
    · rw [if_pos hres] at h
      exact h
    · rw [if_neg hres] at h
      unfold ResultEnhancer.sortByScoreDesc at h
      rw [List.mem_insertionSort] at h
      obtain ⟨p, -, hr⟩ := List.mem_flatMap.mp h
      have h2 := greedyKeep_subset _ _ _ hr
      unfold ResultEnhancer.sortByScoreDesc at h2
      rw [List.mem_insertionSort] at h2
      exact (List.mem_filter.mp h2).1
  · intro results th
    by_cases hres : results = []
    · subst hres
      simp [ResultEnhancer.deduplicate]
    · unfold ResultEnhancer.deduplicate
      rw [if_neg hres]
      have hsymm : ∀ {x y : SearchResult},
          (x.chunk.path = y.chunk.path →
            ResultEnhancer.resultOverlap x y < th) →
          (y.chunk.path = x.chunk.path →
            ResultEnhancer.resultOverlap y x < th) := by
        intro x y hxy hpq
        rw [resultOverlap_symm]
        exact hxy hpq.symm
      unfold ResultEnhancer.sortByScoreDesc
      refine (List.Perm.pairwise_iff hsymm
        (List.perm_insertionSort _ _)).mpr ?_
      rw [List.pairwise_flatMap]
      constructor
      · intro p hp
        refine (greedyKeep_pairwise _ th).imp ?_
        intro a b hab
        intro hpath
        rw [resultOverlap_symm]
        exact hab
      · refine (groupPaths_nodup results).imp ?_
        intro p q hpq x hx y hy
        intro hxy
        exfalso
        apply hpq
        rw [← greedyKeep_path results th p x hx,
          ← greedyKeep_path results th q y hy]
        exact hxy
  · intro results th
    unfold ResultEnhancer.deduplicate
    by_cases hres : results = []
    · rw [if_pos hres]
      subst hres
      exact List.sorted_nil
    · rw [if_neg hres]
      exact List.sorted_insertionSort _ _
  · intro r1 r2 th hp hov
    have hov' : th ≤ ResultEnhancer.resultOverlap r2 r1 := by
      rw [resultOverlap_symm]
      exact hov
    unfold ResultEnhancer.deduplicate
    rw [if_neg (by simp)]
    have hgp : ResultEnhancer.groupPaths [r1, r2] = [r1.chunk.path] := by
      simp [ResultEnhancer.groupPaths, hp.symm]
    rw [hgp]
    simp only [List.flatMap_cons, List.flatMap_nil, List.append_nil]
    have hfil : [r1, r2].filter (fun r => r.chunk.path = r1.chunk.path) =
        [r1, r2] := by
      simp [hp.symm]
    rw [hfil]
    by_cases hsc : r2.score ≤ r1.score
    · have hsort : ResultEnhancer.sortByScoreDesc [r1, r2] = [r1, r2] := by
        unfold ResultEnhancer.sortByScoreDesc
        simp [List.insertionSort, List.orderedInsert, hsc]
      rw [hsort]
      have hgk : ResultEnhancer.greedyKeep [r1, r2] th = [r1] := by
        unfold ResultEnhancer.greedyKeep
        simp [hov']
      rw [hgk, if_pos hsc]
      rfl
    · have hsort : ResultEnhancer.sortByScoreDesc [r1, r2] = [r2, r1] := by
        unfold ResultEnhancer.sortByScoreDesc
        simp [List.insertionSort, List.orderedInsert, hsc]
      rw [hsort]
      have hgk : ResultEnhancer.greedyKeep [r2, r1] th = [r2] := by
        unfold ResultEnhancer.greedyKeep
        simp [hov]
      rw [hgk, if_neg hsc]
      rfl
  · intro r1 r2 th hp
    unfold ResultEnhancer.deduplicate
    rw [if_neg (by simp)]
    have hgp : ResultEnhancer.groupPaths [r1, r2] =
        [r1.chunk.path, r2.chunk.path] := by
      simp [ResultEnhancer.groupPaths, Ne.symm hp]
    rw [hgp]
    simp only [List.flatMap_cons, List.flatMap_nil, List.append_nil]
    have hfil1 : [r1, r2].filter (fun r => r.chunk.path = r1.chunk.path) =
        [r1] := by
      simp [Ne.symm hp]
    have hfil2 : [r1, r2].filter (fun r => r.chunk.path = r2.chunk.path) =
        [r2] := by
      simp [hp]
    rw [hfil1, hfil2]
    have hg1 : ResultEnhancer.greedyKeep
        (ResultEnhancer.sortByScoreDesc [r1]) th = [r1] := by
      unfold ResultEnhancer.sortByScoreDesc ResultEnhancer.greedyKeep
      simp [List.insertionSort, List.orderedInsert]
    have hg2 : ResultEnhancer.greedyKeep
        (ResultEnhancer.sortByScoreDesc [r2]) th = [r2] := by
      unfold ResultEnhancer.sortByScoreDesc ResultEnhancer.greedyKeep
      simp [List.insertionSort, List.orderedInsert]
    rw [hg1, hg2]
    refine ⟨?_, ?_, ?_⟩
    · unfold ResultEnhancer.sortByScoreDesc
      rw [List.mem_insertionSort]
      simp
    · unfold ResultEnhancer.sortByScoreDesc
      rw [List.mem_insertionSort]
      simp
    · unfold ResultEnhancer.sortByScoreDesc
      rw [(List.perm_insertionSort _ _).length_eq]
      rfl
  · intro s1 e1 s2 e2 h1 h2 hdis
    simp only [ResultEnhancer.calculate_overlap]
    rcases hdis with hd | hd
    · rw [max_eq_right (by omega : s1 ≤ s2),
        min_eq_left (by omega : e1 ≤ e2)]
      rw [if_pos (by omega : s2 > e1)]
    · rw [max_eq_left (by omega : s2 ≤ s1),
        min_eq_right (by omega : e2 ≤ e1)]
      rw [if_pos (by omega : s1 > e2)]
  · intro s1 e1 s2 e2 h22 h12 he
    simp only [ResultEnhancer.calculate_overlap]
    rw [max_eq_right h12, min_eq_right he]
    rw [if_neg (by omega : ¬ s2 > e2)]
    rw [min_eq_right (by omega : e2 - s2 + 1 ≤ e1 - s1 + 1)]
    rw [if_pos (by omega : e2 - s2 + 1 > 0)]
    have hne : ((e2 - s2 + 1 : Int) : ℚ) ≠ 0 := by
      exact_mod_cast (by omega : (e2 - s2 + 1 : Int) ≠ 0)
    exact div_self hne

/-- C4 witness: `deduplicate_characterization` applied at concrete inputs —
a nested same-path pair collapses to the higher-scoring result, a
cross-path pair is kept whole, and the two overlap formulas evaluate. -/
theorem deduplicate_characterization_witness :
    ResultEnhancer.deduplicate
      [⟨⟨[], "t", "a.py", 1, 10, "function", none, "python", "h", 0, none⟩,
        3 / 4⟩,
       ⟨⟨[], "t", "a.py", 2, 5, "function", none, "python", "h", 0, none⟩,
        1 / 4⟩] (1 / 2) =
      [if (⟨⟨[], "t", "a.py", 2, 5, "function", none, "python", "h", 0,
          none⟩, 1 / 4⟩ : SearchResult).score ≤
          (⟨⟨[], "t", "a.py", 1, 10, "function", none, "python", "h", 0,
            none⟩, 3 / 4⟩ : SearchResult).score
        then ⟨⟨[], "t", "a.py", 1, 10, "function", none, "python", "h", 0,
          none⟩, 3 / 4⟩
        else ⟨⟨[], "t", "a.py", 2, 5, "function", none, "python", "h", 0,
          none⟩, 1 / 4⟩] ∧
    (ResultEnhancer.deduplicate
      [⟨⟨[], "t", "a.py", 1, 10, "function", none, "python", "h", 0, none⟩,
        3 / 4⟩,
       ⟨⟨[], "t", "b.py", 2, 5, "function", none, "python", "h", 0, none⟩,
        1 / 4⟩] (1 / 2)).length = 2 ∧
    ResultEnhancer.calculate_overlap 1 10 2 5 = 1 ∧
    ResultEnhancer.calculate_overlap 1 2 5 9 = 0 := by
  refine ⟨?_, ?_, ?_, ?_⟩
  · apply deduplicate_characterization.2.2.2.1
    · rfl
    · show (1 / 2 : ℚ) ≤ ResultEnhancer.calculate_overlap 1 10 2 5
      rw [deduplicate_characterization.2.2.2.2.2.2 1 10 2 5 (by norm_num)
        (by norm_num) (by norm_num)]
      norm_num
  · exact (deduplicate_characterization.2.2.2.2.1
      ⟨⟨[], "t", "a.py", 1, 10, "function", none, "python", "h", 0, none⟩,
        3 / 4⟩
      ⟨⟨[], "t", "b.py", 2, 5, "function", none, "python", "h", 0, none⟩,
        1 / 4⟩ (1 / 2) (by decide)).2.2
  · exact deduplicate_characterization.2.2.2.2.2.2 1 10 2 5 (by norm_num)
      (by norm_num) (by norm_num)
  · exact deduplicate_characterization.2.2.2.2.2.1 1 2 5 9 (by norm_num)
      (by norm_num) (Or.inl (by norm_num))
